import Mathlib

/-!
Verification development for the request-signing pipeline of the
`coin-quant/go-aster` futures client (`v2/futures/user_stream_service.go`).

The shallow embedding below translates, from the Go source:
  * the dynamic `interface\x7b\x7d` parameter tree (JSON-decodable values) as `Val`;
  * `normalize` / `normalizeAndStringify` (deterministic canonicalization:
    recursive key sort + `json.Marshal`, which itself sorts map keys);
  * the ABI packing of the `(string, address, address, uint256)` tuple as
    performed by `abi.Arguments.Pack` for those fixed types;
  * `eth.HexToAddress` (go-ethereum: `FromHex` + greedy hex decode +
    last-20-bytes, left-padded) — embedded because the repository calls it
    with unvalidated input and its totality decides an error-handling claim;
  * `Client.sign` and `Client.call` as store-passing functions: the one piece
    of mutable state the Go code manipulates is the cloned top-level params
    map, so the embedding threads an explicit store of map objects addressed
    by `Nat`, mirroring Go reference semantics for `map[string]interface\x7b\x7d`;
  * `genNonce` (`uint64(time.Now().UnixMicro())`) with the clock reading as
    an explicit parameter.

External cryptographic primitives (`crypto.Keccak256`, `crypto.HexToECDSA`,
`crypto.Sign`) are not part of this repository; they enter the embedding as
function parameters of `sign`/`call`, so every theorem about the pipeline is
quantified over them (constrained only by the hypotheses a claim needs, such
as Keccak-256 returning 32 bytes).
-/

namespace GoAster

/-- Dynamic JSON-decodable Go value (`interface\x7b\x7d` holding `nil`, `bool`,
a number, `string`, `[]interface\x7b\x7d` or `map[string]interface\x7b\x7d`).
Numbers are modelled as integers: every numeric value the repository ever
places in a params map is integral and within exact `float64` range, so the
`json`-roundtrip value change (any numeric type to `float64`) is invisible. -/
inductive Val where
  | vnull
  | vbool (b : Bool)
  | vnum (n : Int)
  | vstr (s : String)
  | varr (elems : List Val)
  | vmap (fields : List (String × Val))

/-- Well-formedness of a value as a Go runtime value: every
`map[string]interface\x7b\x7d` has pairwise-distinct keys (Go maps cannot hold
duplicate keys), recursively. -/
inductive WFVal : Val → Prop where
  | vnull : WFVal .vnull
  | vbool (b : Bool) : WFVal (.vbool b)
  | vnum (n : Int) : WFVal (.vnum n)
  | vstr (s : String) : WFVal (.vstr s)
  | varr {xs : List Val} : (∀ x ∈ xs, WFVal x) → WFVal (.varr xs)
  | vmap {kvs : List (String × Val)} : (kvs.map Prod.fst).Nodup →
      (∀ p ∈ kvs, WFVal p.2) → WFVal (.vmap kvs)

/-- Byte-wise lexicographic order on code-point sequences. Go's
`sort.Strings` and `encoding/json` compare strings byte-wise over UTF-8;
UTF-8 byte order coincides with code-point order. -/
def lexLe : List Nat → List Nat → Bool
  | [], _ => true
  | _ :: _, [] => false
  | a :: as, b :: bs =>
    if a < b then true
    else if b < a then false
    else lexLe as bs

/-- Code points of a string. -/
def strCodes (s : String) : List Nat := s.data.map Char.toNat

/-- Go string comparison `a <= b` (byte-wise lexicographic). -/
def strLe (a b : String) : Bool := lexLe (strCodes a) (strCodes b)

/-- Insert a pair into a key-sorted association list (ordered by `strLe`). -/
def insKV {β : Type} (p : String × β) : List (String × β) → List (String × β)
  | [] => [p]
  | q :: t => if strLe p.1 q.1 then p :: q :: t else q :: insKV p t

/-- Sort an association list by key, byte-wise lexicographically — the key
order produced both by `sort.Strings` in `normalize` and by `json.Marshal`
when it serializes a Go map. -/
def sortKV {β : Type} : List (String × β) → List (String × β)
  | [] => []
  | p :: t => insKV p (sortKV t)

/-- Association-list lookup (Go map read `m[k]`). -/
def lookupKV {β : Type} : List (String × β) → String → Option β
  | [], _ => none
  | (k, v) :: t, k' => if k = k' then some v else lookupKV t k'

/-- Association-list update (Go map write `m[k] = v`): replaces the binding
if the key is present, otherwise appends it. -/
def setKV {β : Type} (k : String) (v : β) : List (String × β) → List (String × β)
  | [] => [(k, v)]
  | (k', v') :: t => if k' = k then (k, v) :: t else (k', v') :: setKV k v t

/-- Lower-case hexadecimal digit for a value below 16. -/
def hexDigitChar (n : Nat) : Char :=
  if n < 10 then Char.ofNat (48 + n) else Char.ofNat (87 + n)

/-- One character of `encoding/json` string escaping, with the default
HTML escaping Go applies from `json.Marshal` (`<`, `>`, `&` become
`<` / `>` / `&`; `"` and `\` are backslash-escaped; `\n`,
`\r`, `\t` use short escapes; other control characters use `\u00XX`;
U+2028/U+2029 are escaped; everything else passes through). -/
def escapeChar (c : Char) : String :=
  if c = '"' then "\\\""
  else if c = '\\' then "\\\\"
  else if c = '\n' then "\\n"
  else if c = '\r' then "\\r"
  else if c = '\t' then "\\t"
  else if c.toNat < 32 then
    "\\u00" ++ String.mk [hexDigitChar (c.toNat / 16), hexDigitChar (c.toNat % 16)]
  else if c = '<' then "\\u003c"
  else if c = '>' then "\\u003e"
  else if c = '&' then "\\u0026"
  else if c.toNat = 0x2028 then "\\u2028"
  else if c.toNat = 0x2029 then "\\u2029"
  else String.singleton c

/-- `encoding/json` quoting of a string value. -/
def quoteJSON (s : String) : String :=
  "\"" ++ String.join (s.data.map escapeChar) ++ "\""

mutual
/-- `encoding/json`'s `json.Marshal` on a JSON-decodable Go value.
Maps are serialized with keys sorted byte-wise (Go's map encoder sorts the
keys before encoding); sorting the pairs after rendering each value is
byte-identical to Go's sort-then-render, since rendering a value does not
depend on its position. -/
def jsonMarshal : Val → String
  | .vnull => "null"
  | .vbool b => if b then "true" else "false"
  | .vnum n => toString n
  | .vstr s => quoteJSON s
  | .varr xs => "[" ++ String.intercalate "," (marshalList xs) ++ "]"
  | .vmap kvs =>
    "\x7b" ++
      String.intercalate ","
        ((sortKV (marshalPairs kvs)).map (fun p => quoteJSON p.1 ++ ":" ++ p.2)) ++
      "\x7d"

/-- Renders each element of a JSON array. -/
def marshalList : List Val → List String
  | [] => []
  | x :: t => jsonMarshal x :: marshalList t

/-- Renders each value of a JSON object, keeping keys. -/
def marshalPairs : List (String × Val) → List (String × String)
  | [] => []
  | (k, v) :: t => (k, jsonMarshal v) :: marshalPairs t
end

mutual
/-- `normalize` from the source: recursively rebuilds every map with its
keys in sorted order (the `map[interface\x7b\x7d]interface\x7b\x7d` branch of the Go
switch is unreachable for JSON-decodable values and has no counterpart
here); arrays keep their order; scalars are returned unchanged. On a Go map
(distinct keys) iterating the sorted key list and looking each key up is
exactly sorting the pair list by key. -/
def normalize : Val → Val
  | .vmap kvs => .vmap (sortKV (normalizePairs kvs))
  | .varr xs => .varr (normalizeList xs)
  | v => v

/-- `normalize` mapped over array elements. -/
def normalizeList : List Val → List Val
  | [] => []
  | x :: t => normalize x :: normalizeList t

/-- `normalize` mapped over map values. -/
def normalizePairs : List (String × Val) → List (String × Val)
  | [] => []
  | (k, v) :: t => (k, normalize v) :: normalizePairs t
end

/-- `normalizeAndStringify` from the source: `normalize`, then
`json.Marshal`, returning the marshalled text. Its only Go error source is
`json.Marshal` failing, which cannot happen on a JSON-decodable value, so
the embedding is total. -/
def normalizeAndStringify (v : Val) : String :=
  jsonMarshal (normalize v)

/-- UTF-8 bytes of one character (the byte representation Go strings use). -/
def utf8Bytes (c : Char) : List Nat :=
  let n := c.toNat
  if n < 0x80 then [n]
  else if n < 0x800 then [0xC0 + n / 64, 0x80 + n % 64]
  else if n < 0x10000 then [0xE0 + n / 4096, 0x80 + n / 64 % 64, 0x80 + n % 64]
  else [0xF0 + n / 262144, 0x80 + n / 4096 % 64, 0x80 + n / 64 % 64, 0x80 + n % 64]

/-- Bytes of a Go string (UTF-8). -/
def strBytes (s : String) : List Nat := (s.data.map utf8Bytes).flatten

/-- Lower-case hex encoding of a byte slice (`hex.EncodeToString`). -/
def hexEncode (bs : List Nat) : String :=
  String.mk ((bs.map (fun b => [hexDigitChar (b / 16), hexDigitChar (b % 16)])).flatten)

/-- Value of one hex digit character, if valid (`fromHexChar` in
`encoding/hex`). -/
def hexDigitVal (c : Char) : Option Nat :=
  if '0' ≤ c ∧ c ≤ '9' then some (c.toNat - 48)
  else if 'a' ≤ c ∧ c ≤ 'f' then some (c.toNat - 87)
  else if 'A' ≤ c ∧ c ≤ 'F' then some (c.toNat - 55)
  else none

/-- `encoding/hex` decoding as used by go-ethereum's `Hex2Bytes`, which
discards the error: bytes are decoded pair by pair and decoding stops at the
first invalid character (or at a trailing lone character), returning the
bytes decoded so far. -/
def hexDecodeGreedy : List Char → List Nat
  | a :: b :: rest =>
    match hexDigitVal a, hexDigitVal b with
    | some x, some y => (x * 16 + y) :: hexDecodeGreedy rest
    | _, _ => []
  | _ => []

/-- go-ethereum `BytesToAddress`: keep the last 20 bytes, left-padded with
zeros to exactly 20 bytes. -/
def bytesToAddress (bs : List Nat) : List Nat :=
  let b := if bs.length > 20 then bs.drop (bs.length - 20) else bs
  List.replicate (20 - b.length) 0 ++ b

/-- go-ethereum `HexToAddress`: strip an optional `0x`/`0X` mark, left-pad
an odd-length hex text with `0`, decode greedily (`FromHex` + `Hex2Bytes`),
then take the last 20 bytes left-padded. Never fails. -/
def hexToAddress (s : String) : List Nat :=
  let cs :=
    match s.data with
    | '0' :: c :: rest => if c = 'x' ∨ c = 'X' then rest else s.data
    | other => other
  let cs' := if cs.length % 2 = 1 then '0' :: cs else cs
  bytesToAddress (hexDecodeGreedy cs')

/-- 32-byte big-endian representation of a natural number (truncated to 256
bits, as the ABI `uint256` slot). -/
def be32 (n : Nat) : List Nat :=
  (List.range 32).map (fun i => n / 256 ^ (31 - i) % 256)

/-- Right-pad a byte slice with zeros to a 32-byte boundary (ABI dynamic
tail padding). -/
def padTo32 (bs : List Nat) : List Nat :=
  bs ++ List.replicate ((32 - bs.length % 32) % 32) 0

/-- A 20-byte address occupying a 32-byte ABI head slot (left-padded). -/
def pad32Addr (addr : List Nat) : List Nat := List.replicate 12 0 ++ addr

/-- `abi.Arguments.Pack` for the fixed tuple `(string, address, address,
uint256)`: four 32-byte head slots — the dynamic string's tail offset
(4 * 32 = 128), the two addresses left-padded, the nonce as big-endian
`uint256` — followed by the tail: the string's byte length in a 32-byte
slot and its UTF-8 bytes zero-padded to a 32-byte boundary. -/
def abiPack (s : String) (addrUser addrSigner : List Nat) (nonce : Nat) : List Nat :=
  let sb := strBytes s
  be32 128 ++ pad32Addr addrUser ++ pad32Addr addrSigner ++ be32 nonce ++
    be32 sb.length ++ padTo32 sb

/-- `strings.TrimPrefix(s, "0x")` as applied to the private-key hex. -/
def dropHexMark (s : String) : String :=
  match s.data with
  | '0' :: 'x' :: rest => String.mk rest
  | _ => s

/-- `strings.TrimRight(s, "/")`: removes all trailing slashes. -/
def trimRightSlashes (s : String) : String :=
  String.mk (s.data.reverse.dropWhile (fun c => c = '/')).reverse

/-- A top-level `map[string]interface\x7b\x7d` object's contents. -/
abbrev GoMap := List (String × Val)

/-- The mutable state the pipeline manipulates: top-level params-map
objects addressed by `Nat`. Nested values are never mutated by the code
under study, so they stay pure `Val` trees. -/
abbrev Store := List (Nat × GoMap)

/-- Read a map object (empty contents for a dangling address, which the
embedded code never produces). -/
def storeGet : Store → Nat → GoMap
  | [], _ => []
  | (b, m) :: t, a => if b = a then m else storeGet t a

/-- Write a map object, replacing the binding at the address if present. -/
def storeSet : Store → Nat → GoMap → Store
  | [], a, m => [(a, m)]
  | (b, mb) :: t, a, m => if b = a then (a, m) :: t else (b, mb) :: storeSet t a m

/-- An address not used by any object in the store. -/
def freshAddr (st : Store) : Nat := (st.map Prod.fst).foldr max 0 + 1

/-- Go map write `store[addr][k] = v`. -/
def setKey (st : Store) (addr : Nat) (k : String) (v : Val) : Store :=
  storeSet st addr (setKV k v (storeGet st addr))

/-- `genNonce` from the source: `uint64(time.Now().UnixMicro())` — the
microsecond clock reading (an `int64`, passed here explicitly) reinterpreted
as `uint64`, i.e. taken modulo 2^64. It keeps no other state. -/
def genNonce (micro : Int) : Nat := (micro % (2 : Int) ^ 64).toNat

/-- The Go `error` values the embedded pipeline can return, one constructor
per construction site in the source: `invalidKey` is
`fmt.Errorf("invalid private key: %w", err)`, `signError` is
`fmt.Errorf("sign error: %w", err)`, `sigLength` is
`fmt.Errorf("unexpected signature length: %d", len(sig))`, `paramsNotMap`
is `errors.New("params must be map[string]interface\x7b\x7d")`, `api` is the
`common.APIError` built from an HTTP error response, `transport` is an
error surfaced by the HTTP round trip. -/
inductive Err where
  | invalidKey (msg : String)
  | signError (msg : String)
  | sigLength (n : Nat)
  | paramsNotMap
  | api (body : List Nat)
  | transport (msg : String)
deriving DecidableEq

/-- `Client.sign` from the source, store-passing. `addr` is the address of
the (already cloned) params map; `nonce` is the value `call` drew;
`nowMillis` is the `time.Now()` millisecond reading; `hexToECDSA`, `keccak`
and `ecdsaSign` stand for the external go-ethereum primitives
`crypto.HexToECDSA`, `crypto.Keccak256` and `crypto.Sign`. The two
`abi.NewType` calls cannot fail for the fixed type strings and `Pack`
cannot fail on `(string, Address, Address, *big.Int)` inputs, so neither
has an error case here. On an error the function returns the store as
mutated so far, exactly as the Go code leaves the map. -/
def sign {K : Type} (st : Store) (addr : Nat) (user signer priKeyHex : String)
    (nonce : Nat) (nowMillis : Int)
    (hexToECDSA : String → Except String K)
    (keccak : List Nat → List Nat)
    (ecdsaSign : List Nat → K → Except String (List Nat)) :
    Store × Except Err Unit :=
  let s1 := setKey st addr "recvWindow" (.vstr "50000")
  let s2 := setKey s1 addr "timestamp" (.vstr (toString nowMillis))
  let trimmed := normalizeAndStringify (.vmap (storeGet s2 addr))
  let addrUser := hexToAddress user
  let addrSigner := hexToAddress signer
  let packed := abiPack trimmed addrUser addrSigner nonce
  let hash := keccak packed
  let prefixedMsg := strBytes "\x19Ethereum Signed Message:\n" ++
    strBytes (toString hash.length) ++ hash
  let msgHash := keccak prefixedMsg
  match hexToECDSA (dropHexMark priKeyHex) with
  | .error e => (s2, .error (.invalidKey e))
  | .ok privKey =>
    match ecdsaSign msgHash privKey with
    | .error e => (s2, .error (.signError e))
    | .ok sig =>
      if sig.length ≠ 65 then (s2, .error (.sigLength sig.length))
      else
        let sig' := sig.take 64 ++ [(sig.getD 64 0 + 27) % 256]
        let sigHex := "0x" ++ hexEncode sig'
        let s3 := setKey s2 addr "user" (.vstr user)
        let s4 := setKey s3 addr "signer" (.vstr signer)
        let s5 := setKey s4 addr "signature" (.vstr sigHex)
        let s6 := setKey s5 addr "nonce" (.vnum (Int.ofNat nonce))
        (s6, .ok ())

mutual
/-- The deep copy `cloneInterface` performs via `json.Marshal` followed by
`json.Unmarshal`: a structurally rebuilt value sharing nothing with its
input. On the JSON-decodable domain `Val` the round trip preserves every
node (`Marshal` cannot fail, objects come back as fresh
`map[string]interface\x7b\x7d`, arrays as fresh slices, scalars keep their
value — the numeric-type change to `float64` is invisible in `Val`). -/
def cloneVal : Val → Val
  | .vnull => .vnull
  | .vbool b => .vbool b
  | .vnum n => .vnum n
  | .vstr s => .vstr s
  | .varr xs => .varr (cloneList xs)
  | .vmap kvs => .vmap (clonePairs kvs)

/-- `cloneVal` over array elements. -/
def cloneList : List Val → List Val
  | [] => []
  | x :: t => cloneVal x :: cloneList t

/-- `cloneVal` over map entries. -/
def clonePairs : List (String × Val) → List (String × Val)
  | [] => []
  | (k, v) :: t => (k, cloneVal v) :: clonePairs t
end

/-- The `params` entry of an API descriptor: either a reference to a
params-map object living in the store, or any non-map value (including the
`nil` of an absent entry, as `Val.vnull`). The JSON round trip of
`cloneInterface` maps objects to objects and non-objects to non-objects, so
the Go type assertion on the clone succeeds exactly on `mapRef`. -/
inductive PVal where
  | mapRef (addr : Nat)
  | plain (v : Val)

/-- The API descriptor map `\x7b"url": ..., "method": ..., "params": ...\x7d`
each service hands to `Client.call` (the `url` and `method` entries are
read back with `, _ := .(string)` assertions; the services always store
strings there). -/
structure ApiDesc where
  url : String
  method : String
  params : PVal

/-- `Client.call` from the source, store-passing: clone the params object
(fresh address, deep-copied contents), fail if the clone is not a map, sign
the clone when requested (drawing the nonce from the microsecond clock
reading), then hand the clone's contents to the transport (`send`, an
external collaborator that only reads the map) and translate HTTP error
statuses into `common.APIError`. The pair returned is the final store and
the `(data, error)` result. -/
def call {K : Type} (st : Store) (api : ApiDesc) (doSign : Bool)
    (baseURL user signer priKeyHex : String)
    (nonceMicro : Int) (nowMillis : Int)
    (hexToECDSA : String → Except String K)
    (keccak : List Nat → List Nat)
    (ecdsaSign : List Nat → K → Except String (List Nat))
    (send : String → String → GoMap → Except Err (List Nat × Nat)) :
    Store × Except Err (List Nat) :=
  match api.params with
  | .plain _ => (st, .error .paramsNotMap)
  | .mapRef a =>
    let fresh := freshAddr st
    let st1 := storeSet st fresh (clonePairs (storeGet st a))
    let signed :=
      if doSign then
        sign st1 fresh user signer priKeyHex (genNonce nonceMicro) nowMillis
          hexToECDSA keccak ecdsaSign
      else (st1, .ok ())
    match signed with
    | (st2, .error e) => (st2, .error e)
    | (st2, .ok ()) =>
      let fullUrl := trimRightSlashes baseURL ++ api.url
      match send fullUrl api.method (storeGet st2 fresh) with
      | .error e => (st2, .error e)
      | .ok (body, status) =>
        if status ≥ 400 then (st2, .error (.api body)) else (st2, .ok body)

theorem lexLe_total : ∀ as bs : List Nat, lexLe as bs = true ∨ lexLe bs as = true := by
  intro as
  induction as with
  | nil => intro bs; left; rfl
  | cons a as ih =>
    intro bs
    cases bs with
    | nil => right; rfl
    | cons b bs =>
      simp only [lexLe]
      rcases Nat.lt_trichotomy a b with h | h | h
      · left; simp [h]
      · subst h
        simpa [Nat.lt_irrefl] using ih bs
      · right; simp [h]

theorem lexLe_antisymm : ∀ {as bs : List Nat}, lexLe as bs = true → lexLe bs as = true →
    as = bs := by
  intro as
  induction as with
  | nil =>
    intro bs h1 h2
    cases bs with
    | nil => rfl
    | cons b bs => simp [lexLe] at h2
  | cons a as ih =>
    intro bs h1 h2
    cases bs with
    | nil => simp [lexLe] at h1
    | cons b bs =>
      simp only [lexLe] at h1 h2
      rcases Nat.lt_trichotomy a b with h | h | h
      · simp [h, Nat.lt_asymm h] at h2
      · subst h
        simp only [Nat.lt_irrefl, if_false] at h1 h2
        exact congrArg (a :: ·) (ih h1 h2)
      · simp [h, Nat.lt_asymm h] at h1

theorem lexLe_trans : ∀ {as bs cs : List Nat}, lexLe as bs = true → lexLe bs cs = true →
    lexLe as cs = true := by
  intro as
  induction as with
  | nil => intro bs cs _ _; rfl
  | cons a as ih =>
    intro bs cs h1 h2
    cases bs with
    | nil => simp [lexLe] at h1
    | cons b bs =>
      cases cs with
      | nil => simp [lexLe] at h2
      | cons c cs =>
        simp only [lexLe] at h1 h2 ⊢
        rcases Nat.lt_trichotomy a b with hab | hab | hab
        · rcases Nat.lt_trichotomy b c with hbc | hbc | hbc
          · simp [Nat.lt_trans hab hbc]
          · subst hbc; simp [hab]
          · simp [hbc, Nat.lt_asymm hbc] at h2
        · subst hab
          rcases Nat.lt_trichotomy a c with hac | hac | hac
          · simp [hac]
          · subst hac
            simp only [Nat.lt_irrefl, if_false] at h1 h2 ⊢
            exact ih h1 h2
          · simp [hac, Nat.lt_asymm hac] at h2
        · simp [hab, Nat.lt_asymm hab] at h1

theorem strCodes_inj {a b : String} (h : strCodes a = strCodes b) : a = b := by
  have hinj : Function.Injective Char.toNat := fun x y hxy => Char.ext (UInt32.ext hxy)
  have hdata : a.data = b.data := List.map_injective_iff.mpr hinj h
  cases a; cases b; exact congrArg String.mk hdata

theorem strLe_total (a b : String) : strLe a b = true ∨ strLe b a = true :=
  lexLe_total (strCodes a) (strCodes b)

theorem strLe_antisymm {a b : String} (h1 : strLe a b = true) (h2 : strLe b a = true) :
    a = b :=
  strCodes_inj (lexLe_antisymm h1 h2)

theorem strLe_trans {a b c : String} (h1 : strLe a b = true) (h2 : strLe b c = true) :
    strLe a c = true :=
  lexLe_trans h1 h2

/-- Key order on association-list entries, as a proposition. -/
def keyLe {β : Type} (p q : String × β) : Prop := strLe p.1 q.1 = true

theorem insKV_perm {β : Type} (p : String × β) (l : List (String × β)) :
    List.Perm (insKV p l) (p :: l) := by
  induction l with
  | nil => simp [insKV]
  | cons q t ih =>
    rw [insKV]
    by_cases h : strLe p.1 q.1 = true
    · simp [h]
    · simp only [h, if_false]
      exact ((ih.cons q).trans (List.Perm.swap p q t))

theorem sortKV_perm {β : Type} (l : List (String × β)) : List.Perm (sortKV l) l := by
  induction l with
  | nil => simp [sortKV]
  | cons p t ih => exact (insKV_perm p (sortKV t)).trans (ih.cons p)

theorem insKV_sorted {β : Type} (p : String × β) {l : List (String × β)}
    (h : l.Pairwise keyLe) : (insKV p l).Pairwise keyLe := by
  induction l with
  | nil => simp [insKV, keyLe]
  | cons q t ih =>
    rw [insKV]
    rcases List.pairwise_cons.mp h with ⟨hq, ht⟩
    by_cases hle : strLe p.1 q.1 = true
    · simp only [hle, if_true]
      refine List.pairwise_cons.mpr ⟨?_, h⟩
      intro x hx
      rcases List.mem_cons.mp hx with rfl | hx
      · exact hle
      · exact strLe_trans hle (hq x hx)
    · simp only [hle, if_false]
      refine List.pairwise_cons.mpr ⟨?_, ih ht⟩
      intro x hx
      have hx' := (insKV_perm p t).mem_iff.mp hx
      rcases List.mem_cons.mp hx' with rfl | hx'
      · rcases strLe_total x.1 q.1 with h' | h'
        · exact absurd h' hle
        · exact h'
      · exact hq x hx'

theorem sortKV_sorted {β : Type} (l : List (String × β)) : (sortKV l).Pairwise keyLe := by
  induction l with
  | nil => simp [sortKV]
  | cons p t ih => exact insKV_sorted p ih

theorem sortKV_sorted_id {β : Type} : ∀ {l : List (String × β)},
    l.Pairwise keyLe → sortKV l = l := by
  intro l
  induction l with
  | nil => intro _; rfl
  | cons p t ih =>
    intro h
    rcases List.pairwise_cons.mp h with ⟨hp, ht⟩
    rw [sortKV, ih ht]
    cases t with
    | nil => rfl
    | cons q t' =>
      rw [insKV]
      have hq : strLe p.1 q.1 = true := hp q (by simp)
      simp [hq]

theorem sortKV_eq_of_perm {β : Type} {l₁ l₂ : List (String × β)} (hp : List.Perm l₁ l₂)
    (hn : (l₁.map Prod.fst).Nodup) : sortKV l₁ = sortKV l₂ := by
  have hperm : List.Perm (sortKV l₁) (sortKV l₂) :=
    ((sortKV_perm l₁).trans hp).trans (sortKV_perm l₂).symm
  have hn₁ : ((sortKV l₁).map Prod.fst).Nodup :=
    (((sortKV_perm l₁).map Prod.fst).nodup_iff).mpr hn
  have hn₂ : ((sortKV l₂).map Prod.fst).Nodup :=
    ((hperm.map Prod.fst).nodup_iff).mp hn₁
  have hs₁ : (sortKV l₁).Pairwise (fun p q => keyLe p q ∧ p.1 ≠ q.1) := by
    refine (sortKV_sorted l₁).and ?_
    simpa [List.Nodup, List.pairwise_map] using hn₁
  have hs₂ : (sortKV l₂).Pairwise (fun p q => keyLe p q ∧ p.1 ≠ q.1) := by
    refine (sortKV_sorted l₂).and ?_
    simpa [List.Nodup, List.pairwise_map] using hn₂
  have : IsAntisymm (String × β) (fun p q => keyLe p q ∧ p.1 ≠ q.1) := by
    constructor
    intro p q h1 h2
    exact absurd (strLe_antisymm h1.1 h2.1) h1.2
  exact List.eq_of_perm_of_sorted hperm hs₁ hs₂

theorem insKV_map_val {β γ : Type} (g : β → γ) (p : String × β)
    (l : List (String × β)) :
    insKV (p.1, g p.2) (l.map (fun q => (q.1, g q.2))) =
      (insKV p l).map (fun q => (q.1, g q.2)) := by
  induction l with
  | nil => simp [insKV]
  | cons q t ih =>
    rw [insKV]
    by_cases h : strLe p.1 q.1 = true
    · simp [insKV, h]
    · simp [insKV, h, ih]

theorem sortKV_map_val {β γ : Type} (g : β → γ) (l : List (String × β)) :
    sortKV (l.map (fun q => (q.1, g q.2))) = (sortKV l).map (fun q => (q.1, g q.2)) := by
  induction l with
  | nil => simp [sortKV]
  | cons p t ih =>
    rw [List.map_cons, sortKV, sortKV, ih, insKV_map_val]

theorem marshalList_eq_map (xs : List Val) : marshalList xs = xs.map jsonMarshal := by
  induction xs with
  | nil => rfl
  | cons x t ih => rw [marshalList, List.map_cons, ih]

theorem marshalPairs_eq_map (kvs : List (String × Val)) :
    marshalPairs kvs = kvs.map (fun p => (p.1, jsonMarshal p.2)) := by
  induction kvs with
  | nil => rfl
  | cons p t ih =>
    cases p with
    | mk k v => rw [marshalPairs, List.map_cons, ih]

theorem normalizeList_eq_map (xs : List Val) : normalizeList xs = xs.map normalize := by
  induction xs with
  | nil => rfl
  | cons x t ih => rw [normalizeList, List.map_cons, ih]

theorem normalizePairs_eq_map (kvs : List (String × Val)) :
    normalizePairs kvs = kvs.map (fun p => (p.1, normalize p.2)) := by
  induction kvs with
  | nil => rfl
  | cons p t ih =>
    cases p with
    | mk k v => rw [normalizePairs, List.map_cons, ih]

theorem sortKV_idem {β : Type} (l : List (String × β)) : sortKV (sortKV l) = sortKV l :=
  sortKV_sorted_id (sortKV_sorted l)

theorem nas_varr (xs : List Val) :
    normalizeAndStringify (.varr xs) =
      "[" ++ String.intercalate "," (xs.map normalizeAndStringify) ++ "]" := by
  show "[" ++ String.intercalate "," (marshalList (normalizeList xs)) ++ "]" = _
  rw [marshalList_eq_map, normalizeList_eq_map, List.map_map]
  rfl

theorem nas_vmap (kvs : List (String × Val)) :
    normalizeAndStringify (.vmap kvs) =
      "\x7b" ++
        String.intercalate ","
          ((sortKV (kvs.map (fun p => (p.1, normalizeAndStringify p.2)))).map
            (fun p => quoteJSON p.1 ++ ":" ++ p.2)) ++
        "\x7d" := by
  show "\x7b" ++
      String.intercalate ","
        ((sortKV (marshalPairs (sortKV (normalizePairs kvs)))).map
          (fun p => quoteJSON p.1 ++ ":" ++ p.2)) ++ "\x7d" = _
  rw [marshalPairs_eq_map, ← sortKV_map_val, sortKV_idem, normalizePairs_eq_map,
    List.map_map]
  rfl

mutual
/-- Two Go values hold the same logical data, the insertion order of map
entries apart: scalars are equal, arrays agree element-wise, and a map's
entry list is a permutation of the other's with equal keys and recursively
related values. -/
inductive ValPerm : Val → Val → Prop where
  | vnull : ValPerm .vnull .vnull
  | vbool (b : Bool) : ValPerm (.vbool b) (.vbool b)
  | vnum (n : Int) : ValPerm (.vnum n) (.vnum n)
  | vstr (s : String) : ValPerm (.vstr s) (.vstr s)
  | varr {xs ys : List Val} : ArrPerm xs ys → ValPerm (.varr xs) (.varr ys)
  | vmap {m₁ m₂ m₃ : List (String × Val)} : MapPtw m₁ m₃ → List.Perm m₃ m₂ →
      ValPerm (.vmap m₁) (.vmap m₂)

/-- Element-wise `ValPerm` on array contents (order preserved). -/
inductive ArrPerm : List Val → List Val → Prop where
  | nil : ArrPerm [] []
  | cons {x y : Val} {xs ys : List Val} : ValPerm x y → ArrPerm xs ys →
      ArrPerm (x :: xs) (y :: ys)

/-- Entry-wise relation on map entry lists: same keys in the same
positions, values related by `ValPerm`. -/
inductive MapPtw : List (String × Val) → List (String × Val) → Prop where
  | nil : MapPtw [] []
  | cons {k : String} {v w : Val} {t₁ t₃ : List (String × Val)} : ValPerm v w →
      MapPtw t₁ t₃ → MapPtw ((k, v) :: t₁) ((k, w) :: t₃)
end

theorem mapPtw_keys : ∀ {m₁ m₃ : List (String × Val)}, MapPtw m₁ m₃ →
    m₁.map Prod.fst = m₃.map Prod.fst := by
  intro m₁
  induction m₁ with
  | nil =>
    intro m₃ h
    cases h
    rfl
  | cons p t ih =>
    intro m₃ h
    cases h with
    | cons hvw ht => simpa using ih ht

theorem arrPerm_map_eq : ∀ {xs ys : List Val}, ArrPerm xs ys →
    (∀ x ∈ xs, ∀ y, ValPerm x y →
      normalizeAndStringify x = normalizeAndStringify y) →
    xs.map normalizeAndStringify = ys.map normalizeAndStringify := by
  intro xs
  induction xs with
  | nil =>
    intro ys h _
    cases h
    rfl
  | cons x t ih =>
    intro ys h H
    cases h with
    | cons hxy ht =>
      simp only [List.map_cons]
      rw [H _ (by simp) _ hxy, ih ht (fun z hz y hvp => H z (by simp [hz]) y hvp)]

theorem mapPtw_map_eq : ∀ {m₁ m₃ : List (String × Val)}, MapPtw m₁ m₃ →
    (∀ p ∈ m₁, ∀ w, ValPerm p.2 w →
      normalizeAndStringify p.2 = normalizeAndStringify w) →
    m₁.map (fun p => (p.1, normalizeAndStringify p.2)) =
      m₃.map (fun p => (p.1, normalizeAndStringify p.2)) := by
  intro m₁
  induction m₁ with
  | nil =>
    intro m₃ h _
    cases h
    rfl
  | cons p t ih =>
    intro m₃ h H
    cases h with
    | cons hvw ht =>
      rename_i k v w t₃
      simp only [List.map_cons]
      have h1 : normalizeAndStringify v = normalizeAndStringify w :=
        H (k, v) (by simp) w hvw
      rw [h1, ih ht (fun q hq u hvp => H q (by simp [hq]) u hvp)]

theorem sizeOf_snd_lt_vmap {p : String × Val} {m : List (String × Val)} (h : p ∈ m) :
    sizeOf p.2 < sizeOf (Val.vmap m) := by
  have hm := List.sizeOf_lt_of_mem h
  cases p with
  | mk k v => simp at hm ⊢; omega

theorem sizeOf_lt_varr {x : Val} {xs : List Val} (h : x ∈ xs) :
    sizeOf x < sizeOf (Val.varr xs) := by
  have hm := List.sizeOf_lt_of_mem h
  simp
  omega

theorem nas_perm_aux : ∀ n : Nat, ∀ v₁ v₂ : Val, sizeOf v₁ ≤ n → ValPerm v₁ v₂ →
    WFVal v₁ → normalizeAndStringify v₁ = normalizeAndStringify v₂ := by
  intro n
  induction n with
  | zero =>
    intro v₁ v₂ hs _ _
    exact absurd hs (by cases v₁ <;> simp)
  | succ n ih =>
    intro v₁ v₂ hs hp hwf
    cases hp with
    | vnull => rfl
    | vbool b => rfl
    | vnum m => rfl
    | vstr s => rfl
    | varr harr =>
      rename_i xs ys
      rw [nas_varr, nas_varr]
      rw [arrPerm_map_eq harr]
      intro x hx y hvp
      refine ih x y ?_ hvp ?_
      · have := sizeOf_lt_varr hx
        omega
      · cases hwf with
        | varr hall => exact hall x hx
    | vmap hptw hpm =>
      rename_i m₁ m₂ m₃
      rcases (by cases hwf with | vmap hn hv => exact ⟨hn, hv⟩ :
        (m₁.map Prod.fst).Nodup ∧ ∀ p ∈ m₁, WFVal p.2) with ⟨hn, hv⟩
      have hmap : m₁.map (fun p => (p.1, normalizeAndStringify p.2)) =
          m₃.map (fun p => (p.1, normalizeAndStringify p.2)) := by
        refine mapPtw_map_eq hptw ?_
        intro p hp w hvp
        refine ih p.2 w ?_ hvp (hv p hp)
        have := sizeOf_snd_lt_vmap hp
        omega
      have hperm : List.Perm (m₁.map (fun p => (p.1, normalizeAndStringify p.2)))
          (m₂.map (fun p => (p.1, normalizeAndStringify p.2))) := by
        rw [hmap]
        exact hpm.map _
      have hkeys : ((m₁.map (fun p => (p.1, normalizeAndStringify p.2))).map
          Prod.fst).Nodup := by
        rw [List.map_map]
        simpa [Function.comp] using hn
      rw [nas_vmap, nas_vmap, sortKV_eq_of_perm hperm hkeys]

theorem storeGet_storeSet_same : ∀ (st : Store) (a : Nat) (m : GoMap),
    storeGet (storeSet st a m) a = m := by
  intro st
  induction st with
  | nil => intro a m; simp [storeSet, storeGet]
  | cons p t ih =>
    intro a m
    cases p with
    | mk b mb =>
      rw [storeSet]
      by_cases h : b = a
      · simp [h, storeGet]
      · simp [h, storeGet, ih]

theorem storeGet_storeSet_other : ∀ (st : Store) {a b : Nat}, b ≠ a → ∀ (m : GoMap),
    storeGet (storeSet st a m) b = storeGet st b := by
  intro st
  induction st with
  | nil =>
    intro a b hb m
    simp only [storeSet, storeGet]
    rw [if_neg (Ne.symm hb)]
  | cons p t ih =>
    intro a b hb m
    cases p with
    | mk c mc =>
      rw [storeSet]
      by_cases h : c = a
      · subst h
        rw [if_pos rfl]
        simp only [storeGet]
        rw [if_neg (Ne.symm hb), if_neg (Ne.symm hb)]
      · rw [if_neg h]
        simp only [storeGet]
        by_cases h2 : c = b
        · rw [if_pos h2, if_pos h2]
        · rw [if_neg h2, if_neg h2, ih hb]

theorem storeSet_storeSet_same : ∀ (st : Store) (a : Nat) (m₁ m₂ : GoMap),
    storeSet (storeSet st a m₁) a m₂ = storeSet st a m₂ := by
  intro st
  induction st with
  | nil => intro a m₁ m₂; simp [storeSet]
  | cons p t ih =>
    intro a m₁ m₂
    cases p with
    | mk b mb =>
      rw [storeSet]
      by_cases h : b = a
      · simp [h, storeSet]
      · simp [storeSet, h, ih]

theorem le_foldr_max : ∀ {l : List Nat} {a : Nat}, a ∈ l → a ≤ l.foldr max 0 := by
  intro l
  induction l with
  | nil => intro a h; cases h
  | cons x t ih =>
    intro a h
    rcases List.mem_cons.mp h with rfl | h
    · exact Nat.le_max_left _ _
    · exact le_trans (ih h) (Nat.le_max_right _ _)

theorem ne_freshAddr {st : Store} {a : Nat} (h : a ∈ st.map Prod.fst) :
    a ≠ freshAddr st := by
  intro heq
  have h2 := le_foldr_max h
  rw [heq, freshAddr] at h2
  omega

theorem storeGet_setKey_other {st : Store} {a b : Nat} (hb : b ≠ a)
    (k : String) (v : Val) : storeGet (setKey st a k v) b = storeGet st b :=
  storeGet_storeSet_other st hb _

theorem storeGet_setKey_same (st : Store) (a : Nat) (k : String) (v : Val) :
    storeGet (setKey st a k v) a = setKV k v (storeGet st a) :=
  storeGet_storeSet_same st a _

/-- `Client.sign` mutates only the map object it is given: every other
address in the store is untouched, whether signing succeeds or fails. -/
theorem sign_frame {K : Type} (st : Store) (addr : Nat) (user signer pk : String)
    (nonce : Nat) (now : Int) (hexK : String → Except String K)
    (keccak : List Nat → List Nat) (ecdsa : List Nat → K → Except String (List Nat))
    {b : Nat} (hb : b ≠ addr) :
    storeGet (sign st addr user signer pk nonce now hexK keccak ecdsa).1 b =
      storeGet st b := by
  simp only [sign]
  split
  · simp [storeGet_setKey_other hb]
  · split
    · simp [storeGet_setKey_other hb]
    · split <;> simp [storeGet_setKey_other hb]

/-- The params map after `sign` inserted the freshness fields, in source
order (`recvWindow` first, then `timestamp`), before canonicalization. -/
def withFreshness (m : GoMap) (nowMillis : Int) : GoMap :=
  setKV "timestamp" (.vstr (toString nowMillis))
    (setKV "recvWindow" (.vstr "50000") m)

/-- The canonical text `sign` computes: the params map with only the
freshness fields added — no account fields, no signature, no nonce. -/
def canonicalText (m : GoMap) (nowMillis : Int) : String :=
  normalizeAndStringify (.vmap (withFreshness m nowMillis))

/-- The digest `sign` submits to ECDSA: Keccak of the ABI-packed tuple,
then Keccak of the prefixed message (literal ASCII marker, decimal digits
of the first hash's length, raw hash bytes). -/
def pipelineDigest (keccak : List Nat → List Nat) (canonical user signer : String)
    (nonce : Nat) : List Nat :=
  let packed := abiPack canonical (hexToAddress user) (hexToAddress signer) nonce
  let hash := keccak packed
  keccak (strBytes "\x19Ethereum Signed Message:\n" ++
    strBytes (toString hash.length) ++ hash)

/-- Recovery-byte normalization `sig[64] += 27` (a Go `byte` add, hence
modulo 256). -/
def adjustSig (sig : List Nat) : List Nat :=
  sig.take 64 ++ [(sig.getD 64 0 + 27) % 256]

/-- Claim C1: for every parameter tree and every permutation of the
insertion order of the key/value pairs of its nested mappings (same logical
pairs, different order), canonicalization (`normalizeAndStringify`)
produces byte-identical output strings. -/
theorem C1_canonicalization_insertion_order {v₁ v₂ : Val} (hwf : WFVal v₁)
    (hp : ValPerm v₁ v₂) : normalizeAndStringify v₁ = normalizeAndStringify v₂ :=
  nas_perm_aux (sizeOf v₁) v₁ v₂ le_rfl hp hwf

/-- Witness for C1 at a concrete nested mapping: reordering both the outer
and the inner map entries leaves the canonical string unchanged. -/
theorem C1_canonicalization_insertion_order_witness :
    normalizeAndStringify (Val.vmap [("b", .vnum 1),
        ("a", .vmap [("y", .vstr "u"), ("x", .vnull)])]) =
      normalizeAndStringify (Val.vmap [("a", .vmap [("x", .vnull), ("y", .vstr "u")]),
        ("b", .vnum 1)]) := by
  refine C1_canonicalization_insertion_order ?_ ?_
  · refine WFVal.vmap (by decide) ?_
    intro p hp
    rcases List.mem_cons.mp hp with rfl | hp
    · exact WFVal.vnum 1
    · rcases List.mem_cons.mp hp with rfl | hp
      · refine WFVal.vmap (by decide) ?_
        intro q hq
        rcases List.mem_cons.mp hq with rfl | hq
        · exact WFVal.vstr "u"
        · rcases List.mem_cons.mp hq with rfl | hq
          · exact WFVal.vnull
          · cases hq
      · cases hp
  · refine @ValPerm.vmap _ _ [("b", .vnum 1),
      ("a", .vmap [("x", .vnull), ("y", .vstr "u")])] ?_ ?_
    · refine MapPtw.cons (ValPerm.vnum 1) (MapPtw.cons ?_ MapPtw.nil)
      refine @ValPerm.vmap _ _ [("y", .vstr "u"), ("x", .vnull)] ?_ ?_
      · exact MapPtw.cons (ValPerm.vstr "u") (MapPtw.cons ValPerm.vnull MapPtw.nil)
      · exact List.Perm.swap ("x", Val.vnull) ("y", Val.vstr "u") []
    · exact List.Perm.swap ("a", Val.vmap [("x", Val.vnull), ("y", Val.vstr "u")])
        ("b", Val.vnum 1) []

/-- Claim C3: canonicalizing the mapping
`\x7b"symbol":"BTCUSDT","side":"BUY","quantity":"1.5"\x7d` produces exactly
`\x7b"quantity":"1.5","side":"BUY","symbol":"BTCUSDT"\x7d`, keys sorted
lexicographically. -/
theorem C3_canonical_example :
    normalizeAndStringify (Val.vmap [("symbol", .vstr "BTCUSDT"),
        ("side", .vstr "BUY"), ("quantity", .vstr "1.5")]) =
      "\x7b\"quantity\":\"1.5\",\"side\":\"BUY\",\"symbol\":\"BTCUSDT\"\x7d" := by
  rfl

theorem lookupKV_setKV {β : Type} (k k' : String) (v : β) :
    ∀ m : List (String × β),
      lookupKV (setKV k v m) k' = if k = k' then some v else lookupKV m k' := by
  intro m
  induction m with
  | nil => simp [setKV, lookupKV]
  | cons p t ih =>
    cases p with
    | mk k₀ v₀ =>
      rw [setKV]
      by_cases h : k₀ = k
      · subst h
        simp only [lookupKV]
        by_cases h2 : k₀ = k' <;> simp [h2]
      · simp only [h, if_false, lookupKV]
        by_cases h2 : k₀ = k'
        · subst h2
          simp [lookupKV, Ne.symm h]
        · simp [h2, ih]

theorem bytesToAddress_length (bs : List Nat) : (bytesToAddress bs).length = 20 := by
  unfold bytesToAddress
  by_cases h : bs.length > 20
  · simp [h]
    omega
  · simp [h]
    omega

theorem hexToAddress_length (s : String) : (hexToAddress s).length = 20 := by
  unfold hexToAddress
  exact bytesToAddress_length _

/-- Claim C5 counterexample: `genNonce` keeps no state besides the clock
reading, so two distinct calls whose microsecond readings coincide emit
the same value — both calls at reading 1700000000000000 emit
1700000000000000, refuting distinctness of nonces across distinct calls. -/
theorem C5_counterexample :
    genNonce 1700000000000000 = genNonce 1700000000000000 ∧
      genNonce 1700000000000000 = 1700000000000000 :=
  ⟨rfl, by decide⟩

/-- Claim C5 amended: `genNonce` is the microsecond wall-clock reading
reinterpreted as `uint64`, with no collision guard: two calls emit distinct
nonces exactly when their (in-range) clock readings are distinct, and calls
whose readings coincide emit the same nonce. -/
theorem C5_nonce_distinct_iff_clock_distinct (t₁ t₂ : Int) (h₁ : 0 ≤ t₁)
    (h₁' : t₁ < 2 ^ 64) (h₂ : 0 ≤ t₂) (h₂' : t₂ < 2 ^ 64) :
    genNonce t₁ = genNonce t₂ ↔ t₁ = t₂ := by
  unfold genNonce
  rw [Int.emod_eq_of_lt h₁ h₁', Int.emod_eq_of_lt h₂ h₂']
  omega

/-- Witness for the amended C5 at concrete readings. -/
theorem C5_nonce_distinct_iff_clock_distinct_witness :
    (genNonce 1700000000000000 = genNonce 1700000000000001 ↔
      (1700000000000000 : Int) = 1700000000000001) :=
  C5_nonce_distinct_iff_clock_distinct 1700000000000000 1700000000000001
    (by decide) (by decide) (by decide) (by decide)

/-- Claim C10: for every API descriptor whose `params` entry is not a
string-keyed mapping, `Client.call` returns the params-must-be-map error
without signing and without sending: the result is the same for every
crypto primitive and every transport function, the store is untouched, and
no data is returned. -/
theorem C10_params_must_be_map {K : Type} (st : Store) (api : ApiDesc) (v : Val)
    (hp : api.params = .plain v) (doSign : Bool) (baseURL user signer pk : String)
    (nonceMicro now : Int) (hexK : String → Except String K)
    (keccak : List Nat → List Nat) (ecdsa : List Nat → K → Except String (List Nat))
    (send : String → String → GoMap → Except Err (List Nat × Nat)) :
    call st api doSign baseURL user signer pk nonceMicro now hexK keccak ecdsa
        send = (st, .error .paramsNotMap) := by
  simp [call, hp]

/-- Witness for C10 at a concrete descriptor whose params entry is an
array. -/
theorem C10_params_must_be_map_witness :
    call ([] : Store) ⟨"/fapi/v3/ping", "GET", .plain (.varr [])⟩ true "https://x"
        "u" "s" "k" 0 0 (fun _ => Except.ok ()) (fun bs => bs)
        (fun _ _ => Except.ok []) (fun _ _ _ => Except.ok ([], 200)) =
      (([] : Store), Except.error Err.paramsNotMap) :=
  C10_params_must_be_map _ _ _ rfl _ _ _ _ _ _ _ _ _ _ _

/-- Claim C4: for every template parameter tree handed to the assembler
(`Client.call` with sign=true), the caller's original template object is
unchanged after the call: `call` deep-copies the params object to a fresh
address and every write of the signing step goes to that copy, so the
template's contents — with none of the injected fields and no modified
entry — are exactly what they were before the call. -/
theorem C4_template_unchanged {K : Type} (st : Store) (api : ApiDesc) (a : Nat)
    (hp : api.params = .mapRef a) (ha : a ∈ st.map Prod.fst)
    (baseURL user signer pk : String) (nonceMicro now : Int)
    (hexK : String → Except String K) (keccak : List Nat → List Nat)
    (ecdsa : List Nat → K → Except String (List Nat))
    (send : String → String → GoMap → Except Err (List Nat × Nat)) :
    storeGet (call st api true baseURL user signer pk nonceMicro now hexK keccak
      ecdsa send).1 a = storeGet st a := by
  have hne : a ≠ freshAddr st := ne_freshAddr ha
  have hframe : storeGet (sign (storeSet st (freshAddr st)
      (clonePairs (storeGet st a))) (freshAddr st) user signer pk
      (genNonce nonceMicro) now hexK keccak ecdsa).1 a = storeGet st a := by
    rw [sign_frame _ _ _ _ _ _ _ _ _ _ hne]
    exact storeGet_storeSet_other st hne _
  simp only [call, hp, if_true]
  cases hS : sign (storeSet st (freshAddr st) (clonePairs (storeGet st a)))
      (freshAddr st) user signer pk (genNonce nonceMicro) now hexK keccak
      ecdsa with
  | mk st2 r =>
    rw [hS] at hframe
    cases r with
    | error e => simpa using hframe
    | ok u =>
      cases u
      cases hSend : send (trimRightSlashes baseURL ++ api.url) api.method
          (storeGet st2 (freshAddr st)) with
      | error e => simpa [hSend] using hframe
      | ok pr =>
        cases pr with
        | mk body status =>
          by_cases hst : status ≥ 400
          · simpa [hSend, hst] using hframe
          · simpa [hSend, hst] using hframe

/-- Witness for C4 at a concrete template and concrete primitives: the
template object at address 0 still holds exactly its two original entries
after a signed call. -/
theorem C4_template_unchanged_witness :
    storeGet (call ([(0, [("symbol", Val.vstr "BTCUSDT"),
        ("side", Val.vstr "BUY")])] : Store)
      ⟨"/fapi/v1/order", "POST", .mapRef 0⟩ true "https://fapi.asterdex.com"
      "0x01" "0x02" "ab" 1700000000000000 1700000000000
      (fun _ => Except.ok ()) (fun _ => List.replicate 32 0)
      (fun _ _ => Except.ok (List.replicate 64 0 ++ [1]))
      (fun _ _ _ => Except.ok ([], 200))).1 0 =
      storeGet ([(0, [("symbol", Val.vstr "BTCUSDT"),
        ("side", Val.vstr "BUY")])] : Store) 0 :=
  C4_template_unchanged _ _ 0 rfl (by simp) _ _ _ _ _ _ _ _ _ _

/-- Claim C7: any failure surfaced by the signing step aborts the assembly:
`Client.call` returns the very same error value — not wrapped, not
replaced — together with no data (the canonicalization and tuple-encoding
stages of the Go code cannot fail on JSON-decodable parameter trees, so
every pipeline failure reaches `call` through `sign`'s result). -/
theorem C7_error_propagation {K : Type} (st : Store) (api : ApiDesc) (a : Nat)
    (hp : api.params = .mapRef a) (baseURL user signer pk : String)
    (nonceMicro now : Int) (hexK : String → Except String K)
    (keccak : List Nat → List Nat) (ecdsa : List Nat → K → Except String (List Nat))
    (send : String → String → GoMap → Except Err (List Nat × Nat)) (e : Err)
    (hs : (sign (storeSet st (freshAddr st) (clonePairs (storeGet st a)))
        (freshAddr st) user signer pk (genNonce nonceMicro) now hexK keccak
        ecdsa).2 = .error e) :
    (call st api true baseURL user signer pk nonceMicro now hexK keccak ecdsa
        send).2 = .error e := by
  simp only [call, hp, if_true]
  cases hS : sign (storeSet st (freshAddr st) (clonePairs (storeGet st a)))
      (freshAddr st) user signer pk (genNonce nonceMicro) now hexK keccak
      ecdsa with
  | mk st2 r =>
    rw [hS] at hs
    simp only at hs
    subst hs
    simp

/-- Witness for C7: with a malformed private key the concrete call returns
exactly the invalid-private-key error and no data. -/
theorem C7_error_propagation_witness :
    (call ([(0, [])] : Store) ⟨"/fapi/v1/order", "POST", .mapRef 0⟩ true
        "https://fapi.asterdex.com" "0x01" "0x02" "zz" 1700000000000000
        1700000000000 (fun _ => (Except.error "bad key" : Except String Unit))
        (fun _ => List.replicate 32 0)
        (fun _ _ => Except.ok (List.replicate 64 0 ++ [1]))
        (fun _ _ _ => Except.ok ([], 200))).2 =
      Except.error (Err.invalidKey "bad key") :=
  C7_error_propagation _ _ 0 rfl _ _ _ _ _ _ _ _ _ _ _ rfl

/-- Claim C9: `sign` fails with the invalid-private-key (`SigningError`)
value when the supplied key hex is malformed; it fails with the
unexpected-signature-length (`InvariantViolation`) value when ECDSA returns
anything but exactly 65 bytes — in both failure cases only the freshness
fields were written, so no recovery byte was ever adjusted; the +27
adjustment of the recovery byte happens only in the branch where the
65-byte length check has passed, where the stored signature is the hex of
the adjusted bytes. -/
theorem C9_sign_error_paths {K : Type} (st : Store) (addr : Nat)
    (user signer pk : String) (nonce : Nat) (now : Int)
    (hexK : String → Except String K) (keccak : List Nat → List Nat)
    (ecdsa : List Nat → K → Except String (List Nat)) :
    (∀ e, hexK (dropHexMark pk) = .error e →
      sign st addr user signer pk nonce now hexK keccak ecdsa =
        (storeSet st addr (withFreshness (storeGet st addr) now),
          .error (.invalidKey e))) ∧
    (∀ (pkv : K) (sig : List Nat), hexK (dropHexMark pk) = .ok pkv →
      ecdsa (pipelineDigest keccak (canonicalText (storeGet st addr) now)
        user signer nonce) pkv = .ok sig → sig.length ≠ 65 →
      sign st addr user signer pk nonce now hexK keccak ecdsa =
        (storeSet st addr (withFreshness (storeGet st addr) now),
          .error (.sigLength sig.length))) ∧
    (∀ (pkv : K) (sig : List Nat), hexK (dropHexMark pk) = .ok pkv →
      ecdsa (pipelineDigest keccak (canonicalText (storeGet st addr) now)
        user signer nonce) pkv = .ok sig → sig.length = 65 →
      lookupKV (storeGet (sign st addr user signer pk nonce now hexK keccak
        ecdsa).1 addr) "signature" =
        some (.vstr ("0x" ++ hexEncode (adjustSig sig)))) := by
  refine ⟨?_, ?_, ?_⟩
  · intro e hkey
    simp only [sign, setKey, storeGet_storeSet_same, storeSet_storeSet_same, hkey]
    simp [withFreshness]
  · intro pkv sig hkey hsig h65
    simp only [pipelineDigest, canonicalText, withFreshness] at hsig
    simp only [sign, setKey, storeGet_storeSet_same, storeSet_storeSet_same,
      hkey, hsig]
    simp [withFreshness, h65]
  · intro pkv sig hkey hsig h65
    simp only [pipelineDigest, canonicalText, withFreshness] at hsig
    simp only [sign, setKey, storeGet_storeSet_same, storeSet_storeSet_same,
      hkey, hsig]
    simp [h65, adjustSig, storeGet_storeSet_same, lookupKV_setKV]

/-- Witness for C9: the three arms evaluated at concrete inputs — a
malformed key, a 64-byte signature, and a 65-byte signature. -/
theorem C9_sign_error_paths_witness :
    sign ([(0, [])] : Store) 0 "0x01" "0x02" "zz" 1 2
        (fun _ => (Except.error "bad" : Except String Unit))
        (fun _ => List.replicate 32 0)
        (fun _ _ => Except.ok (List.replicate 64 0 ++ [1])) =
      (storeSet ([(0, [])] : Store) 0
          (withFreshness (storeGet ([(0, [])] : Store) 0) 2),
        Except.error (Err.invalidKey "bad")) ∧
    sign ([(0, [])] : Store) 0 "0x01" "0x02" "ab" 1 2
        (fun _ => (Except.ok () : Except String Unit))
        (fun _ => List.replicate 32 0)
        (fun _ _ => Except.ok (List.replicate 64 0)) =
      (storeSet ([(0, [])] : Store) 0
          (withFreshness (storeGet ([(0, [])] : Store) 0) 2),
        Except.error (Err.sigLength 64)) ∧
    lookupKV (storeGet (sign ([(0, [])] : Store) 0 "0x01" "0x02" "ab" 1 2
        (fun _ => (Except.ok () : Except String Unit))
        (fun _ => List.replicate 32 0)
        (fun _ _ => Except.ok (List.replicate 64 0 ++ [1]))).1 0) "signature" =
      some (Val.vstr ("0x" ++ hexEncode (adjustSig (List.replicate 64 0 ++ [1])))) := by
  refine ⟨?_, ?_, ?_⟩
  · exact (C9_sign_error_paths _ _ _ _ _ _ _ _ _ _).1 "bad" rfl
  · have h := (C9_sign_error_paths ([(0, [])] : Store) 0 "0x01" "0x02" "ab" 1 2
      (fun _ => (Except.ok () : Except String Unit))
      (fun _ => List.replicate 32 0)
      (fun _ _ => Except.ok (List.replicate 64 0))).2.1 () (List.replicate 64 0)
      rfl rfl (by simp)
    simpa using h
  · exact (C9_sign_error_paths _ _ _ _ _ _ _ _ _ _).2.2 () _ rfl rfl (by simp)

/-- Claim C2: `sign` computes Keccak-256 of the ABI-packed tuple, builds
the prefixed message as the literal ASCII bytes of
`\x19Ethereum Signed Message:\n` followed by the decimal digits of the
hash length (32, whenever Keccak returns 32 bytes) followed by the raw
hash bytes, hashes the prefixed message again with Keccak-256, signs that
digest with the ECDSA primitive, adds 27 to the recovery byte — turning
the 0/1 convention into 27/28 — and stores the 65 bytes hex-encoded with a
`0x` mark. -/
theorem C2_sign_steps {K : Type} (st : Store) (addr : Nat)
    (user signer pk : String) (nonce : Nat) (now : Int)
    (hexK : String → Except String K) (keccak : List Nat → List Nat)
    (ecdsa : List Nat → K → Except String (List Nat)) (pkv : K) (sig : List Nat)
    (hk32 : ∀ bs, (keccak bs).length = 32)
    (hkey : hexK (dropHexMark pk) = .ok pkv)
    (hsig : ecdsa (keccak (strBytes "\x19Ethereum Signed Message:\n" ++
        strBytes "32" ++
        keccak (abiPack (canonicalText (storeGet st addr) now)
          (hexToAddress user) (hexToAddress signer) nonce))) pkv = .ok sig)
    (h65 : sig.length = 65) :
    (sign st addr user signer pk nonce now hexK keccak ecdsa).2 = .ok () ∧
    lookupKV (storeGet (sign st addr user signer pk nonce now hexK keccak
        ecdsa).1 addr) "signature" =
      some (.vstr ("0x" ++
        hexEncode (sig.take 64 ++ [(sig.getD 64 0 + 27) % 256]))) ∧
    ((sig.getD 64 0 = 0 ∨ sig.getD 64 0 = 1) →
      ((sig.getD 64 0 + 27) % 256 = 27 ∨ (sig.getD 64 0 + 27) % 256 = 28)) := by
  have h32 : toString (keccak (abiPack (canonicalText (storeGet st addr) now)
      (hexToAddress user) (hexToAddress signer) nonce)).length = "32" := by
    rw [hk32]
    rfl
  simp only [canonicalText, withFreshness] at hsig h32
  refine ⟨?_, ?_, ?_⟩
  · simp only [sign, setKey, storeGet_storeSet_same, storeSet_storeSet_same,
      hkey, h32, hsig]
    simp [h65]
  · simp only [sign, setKey, storeGet_storeSet_same, storeSet_storeSet_same,
      hkey, h32, hsig]
    simp [h65, storeGet_storeSet_same, lookupKV_setKV]
  · intro hv
    rcases hv with hv | hv <;> rw [hv] <;> norm_num

/-- Witness for C2 at concrete primitives with a recovery byte of 1: the
stored signature is the 0x-hex of the adjusted 65 bytes. -/
theorem C2_sign_steps_witness :
    (sign ([(0, [])] : Store) 0 "0x01" "0x02" "ab" 1 2
        (fun _ => (Except.ok () : Except String Unit))
        (fun _ => List.replicate 32 0)
        (fun _ _ => Except.ok (List.replicate 64 0 ++ [1]))).2 = .ok () ∧
    lookupKV (storeGet (sign ([(0, [])] : Store) 0 "0x01" "0x02" "ab" 1 2
        (fun _ => (Except.ok () : Except String Unit))
        (fun _ => List.replicate 32 0)
        (fun _ _ => Except.ok (List.replicate 64 0 ++ [1]))).1 0) "signature" =
      some (.vstr ("0x" ++ hexEncode ((List.replicate 64 0 ++ [1]).take 64 ++
        [((List.replicate 64 0 ++ [1]).getD 64 0 + 27) % 256]))) ∧
    (((List.replicate 64 0 ++ [1]).getD 64 0 = 0 ∨
        (List.replicate 64 0 ++ [1]).getD 64 0 = 1) →
      (((List.replicate 64 0 ++ [1]).getD 64 0 + 27) % 256 = 27 ∨
        ((List.replicate 64 0 ++ [1]).getD 64 0 + 27) % 256 = 28)) :=
  C2_sign_steps _ _ _ _ _ _ _ _ _ _ _ _ (fun bs => by simp) rfl rfl (by simp)

/-- Claim C8: in the assembled signed request the canonical text is
computed from the params map right after the freshness fields
(`recvWindow`, the fixed "50000" policy string slot, and `timestamp`) were
inserted and before `user`, `signer`, `signature` and `nonce` are: the
digest handed to ECDSA is built from that canonical text together with the
two account addresses inside the ABI tuple, and the signature value is
inserted into the map only afterwards, so it is no part of the hashed
payload. -/
theorem C8_canonicalize_before_account_fields {K : Type} (st : Store) (addr : Nat)
    (user signer pk : String) (nonce : Nat) (now : Int)
    (hexK : String → Except String K) (keccak : List Nat → List Nat)
    (ecdsa : List Nat → K → Except String (List Nat)) (pkv : K) (sig : List Nat)
    (hkey : hexK (dropHexMark pk) = .ok pkv)
    (hsig : ecdsa (pipelineDigest keccak (canonicalText (storeGet st addr) now)
      user signer nonce) pkv = .ok sig)
    (h65 : sig.length = 65) :
    sign st addr user signer pk nonce now hexK keccak ecdsa =
      (storeSet st addr (setKV "nonce" (.vnum (Int.ofNat nonce))
        (setKV "signature" (.vstr ("0x" ++ hexEncode (adjustSig sig)))
          (setKV "signer" (.vstr signer)
            (setKV "user" (.vstr user)
              (withFreshness (storeGet st addr) now))))), .ok ()) := by
  simp only [pipelineDigest, canonicalText, withFreshness] at hsig
  simp only [sign, setKey, storeGet_storeSet_same, storeSet_storeSet_same,
    hkey, hsig]
  simp [h65, withFreshness, adjustSig]

/-- Witness for C8 at concrete primitives: the final store holds exactly
the template plus freshness fields plus account fields plus signature plus
nonce, in that insertion structure. -/
theorem C8_canonicalize_before_account_fields_witness :
    sign ([(0, [("symbol", Val.vstr "BTCUSDT")])] : Store) 0 "0x01" "0x02" "ab"
        1700000000000000 1700000000000
        (fun _ => (Except.ok () : Except String Unit))
        (fun _ => List.replicate 32 0)
        (fun _ _ => Except.ok (List.replicate 64 0 ++ [1])) =
      (storeSet ([(0, [("symbol", Val.vstr "BTCUSDT")])] : Store) 0
        (setKV "nonce" (.vnum (Int.ofNat 1700000000000000))
          (setKV "signature"
            (.vstr ("0x" ++ hexEncode (adjustSig (List.replicate 64 0 ++ [1]))))
            (setKV "signer" (.vstr "0x02")
              (setKV "user" (.vstr "0x01")
                (withFreshness (storeGet
                  ([(0, [("symbol", Val.vstr "BTCUSDT")])] : Store) 0)
                  1700000000000))))), .ok ()) :=
  C8_canonicalize_before_account_fields _ _ _ _ _ _ _ _ _ _ _ _ rfl rfl (by simp)

/-- Claim C6 counterexample: the signing pipeline run with malformed
account and signer addresses (`"0xZZ"` decodes no hex pair, and
`"not 20 bytes of hex"` is not a well-formed 20-byte value either)
succeeds and produces a signature — it does not return an `EncodingError`
or any other error, because `eth.HexToAddress` silently coerces every
string to some 20-byte value. -/
theorem C6_counterexample :
    (sign ([(0, [])] : Store) 0 "0xZZ" "not 20 bytes of hex" "ab"
        1700000000000000 1700000000000
        (fun _ => (Except.ok () : Except String Unit))
        (fun _ => List.replicate 32 0)
        (fun _ _ => Except.ok (List.replicate 64 0 ++ [1]))).2 =
      Except.ok () := by
  rfl

/-- Claim C6 amended: addresses are never validated anywhere in the
pipeline: `eth.HexToAddress` totally coerces every string — well-formed
20-byte hex or not — to exactly 20 bytes (greedy hex decode, last
20 bytes, left zero-padding), the tuple encoding accepts the result, and
`sign`'s outcome is independent of address well-formedness: with any
parseable key and a 65-byte ECDSA result it succeeds for every `user` and
`signer` string. -/
theorem C6_addresses_never_rejected {K : Type} (st : Store) (addr : Nat)
    (user signer pk : String) (nonce : Nat) (now : Int)
    (hexK : String → Except String K) (keccak : List Nat → List Nat)
    (ecdsa : List Nat → K → Except String (List Nat)) (pkv : K)
    (hkey : hexK (dropHexMark pk) = .ok pkv)
    (hsig : ∀ msg, ∃ sig, ecdsa msg pkv = .ok sig ∧ sig.length = 65) :
    (hexToAddress user).length = 20 ∧ (hexToAddress signer).length = 20 ∧
      (sign st addr user signer pk nonce now hexK keccak ecdsa).2 =
        Except.ok () := by
  refine ⟨hexToAddress_length user, hexToAddress_length signer, ?_⟩
  obtain ⟨sig, hs, h65⟩ := hsig (pipelineDigest keccak
    (canonicalText (storeGet st addr) now) user signer nonce)
  simp only [pipelineDigest, canonicalText, withFreshness] at hs
  simp only [sign, setKey, storeGet_storeSet_same, storeSet_storeSet_same,
    hkey, hs]
  simp [h65]

/-- Witness for the amended C6 at concrete malformed addresses. -/
theorem C6_addresses_never_rejected_witness :
    (hexToAddress "ZZ-not-hex").length = 20 ∧
      (hexToAddress "0xdeadbeef-too-short").length = 20 ∧
      (sign ([(0, [])] : Store) 0 "ZZ-not-hex" "0xdeadbeef-too-short" "ab" 1 2
        (fun _ => (Except.ok () : Except String Unit))
        (fun _ => List.replicate 32 0)
        (fun _ _ => Except.ok (List.replicate 64 0 ++ [1]))).2 =
        Except.ok () :=
  C6_addresses_never_rejected _ _ _ _ _ _ _ _ _ _ _ rfl
    (fun msg => ⟨List.replicate 64 0 ++ [1], rfl, by simp⟩)

end GoAster
